import Mathlib

set_option maxHeartbeats 1000000

/-!
Shallow embedding of the audio transcription pipeline of the organism
repository (backend/core/intelligence/sound and backend/core/senses/sound).
External effects (the remote transcription call, the pydub decode, encode
and speed-up routines) are function parameters; the orchestration logic is
translated line by line from the Python source. Fallible steps return
Except String, mirroring Python exceptions; rational numbers stand for the
Python floats of the byte-size heuristic, whose values stay well inside the
exactly-representable range.
-/

/-- Decoded audio, one abstract frame per millisecond (pydub AudioSegment
supports length and slicing by milliseconds). -/
abbrev Audio := List Nat

abbrev Byte := Nat

/-- Model of a fastapi UploadFile: optional filename, optional declared
content type, optional declared size, and the byte content of the stream. -/
structure UploadFile where
  filename : Option String
  content_type : Option String
  size : Option Nat
  content : List Byte
deriving DecidableEq

/-- File tuple (name, bytes, mime) sent to the remote transcription API. -/
structure FileTuple where
  name : String
  bytes : List Byte
  mime : String
deriving DecidableEq

/-! Constants from backend/core/intelligence/sound/constants.py. -/

def WHISPER_MODEL : String := "whisper-1"

def MAX_CHUNK_DURATION_MS : Nat := 30 * 60 * 1000

def OPTIMAL_EXPORT_FORMAT : String := "ogg"

def SUPPORTED_AUDIO_FORMATS : List String :=
  [".mp3", ".mp4", ".m4a", ".wav", ".flac", ".ogg", ".webm"]

/-! Format detection, from backend/core/senses/sound/format_detection.py. -/

/-- Characters of the last path component of a filename, as pathlib name. -/
def pathName (s : String) : List Char :=
  (s.data.reverse.takeWhile (fun c => c ≠ '/')).reverse

/-- Characters of the pathlib suffix of a filename: the part of the last
component from its last dot, empty when the dot is leading, trailing or
absent. -/
def pathSuffix (s : String) : List Char :=
  let n := pathName s
  let after := n.reverse.takeWhile (fun c => c ≠ '.')
  if after.length = n.length then []
  else if 0 < n.length - after.length - 1 ∧ 0 < after.length then '.' :: after.reverse
  else []

def strLower (s : String) : String := String.mk (s.data.map Char.toLower)

/-- Search for needle at every position of hay. -/
def containsSubAux (needle : List Char) : List Char → Bool
  | [] => needle.isEmpty
  | c :: t => needle.isPrefixOf (c :: t) || containsSubAux needle t

/-- Substring containment, the Python in operator on strings. -/
def containsSub (hay needle : String) : Bool := containsSubAux needle.data hay.data

/-- Translation of AudioFormatDetector extract audio format from filename:
the lowered pathlib suffix, kept when it is a supported extension, with the
dot removed. An empty filename is falsy in the Python guard. -/
def extract_audio_format_from_filename (filename : Option String) : Option String :=
  match filename with
  | none => none
  | some fn =>
    if fn = "" then none
    else
      let suffix := String.mk ((pathSuffix fn).map Char.toLower)
      if suffix ∈ SUPPORTED_AUDIO_FORMATS then some (suffix.drop 1) else none

/-- Translation of AudioFormatDetector extract audio format from content
type: case-insensitive substring matches, mp4 or m4a first, then mp3, then
wav. An empty content type is falsy in the Python guard. -/
def extract_audio_format_from_content_type (content_type : Option String) : Option String :=
  match content_type with
  | none => none
  | some ct =>
    if ct = "" then none
    else
      let ctl := strLower ct
      if containsSub ctl "mp4" || containsSub ctl "m4a" then some "m4a"
      else if containsSub ctl "mp3" then some "mp3"
      else if containsSub ctl "wav" then some "wav"
      else none

/-- Translation of AudioFormatDetector.determine_audio_format. -/
def determine_audio_format (f : UploadFile) : String :=
  match extract_audio_format_from_filename f.filename with
  | some x => x
  | none =>
    match extract_audio_format_from_content_type f.content_type with
    | some x => x
    | none => "mp3"

/-! Audio processing, from backend/core/intelligence/sound/audio_processing.py. -/

/-- Translation of AudioLoader.load_audio_with_fallback. The two pydub
decode calls are parameters; the file-system state is the list of file
names present, threaded explicitly. When the fallback decode raises, the
exception propagates before the cleanup line runs, exactly as in the
source, so the temporary file stays in the returned file-system state. -/
def load_audio_with_fallback (fromFileObject : UploadFile → String → Except String Audio)
    (fromTempFile : List Byte → Except String Audio)
    (audio_file : UploadFile) (file_format : String) (fs : List String) :
    Except String Audio × List String :=
  match fromFileObject audio_file file_format with
  | Except.ok a => (Except.ok a, fs)
  | Except.error _ =>
    let temp_filename := "temp." ++ file_format
    let fs1 := if temp_filename ∈ fs then fs else fs ++ [temp_filename]
    match fromTempFile audio_file.content with
    | Except.ok a => (Except.ok a, fs1.erase temp_filename)
    | Except.error e => (Except.error e, fs1)

/-- Translation of AudioSegmenter.calculate_optimal_chunk_duration. -/
def calculate_optimal_chunk_duration (audio_duration_ms : Nat) : Nat :=
  if audio_duration_ms ≤ MAX_CHUNK_DURATION_MS then audio_duration_ms
  else MAX_CHUNK_DURATION_MS

/-- Translation of AudioSegmenter.split_audio_into_segments: the Python
range over 0, chunk, 2*chunk, ... below the length is List.range' with
(length + chunk - 1) / chunk entries, and each index is sliced to a
segment of at most chunk_size_ms frames. -/
def split_audio_into_segments (audio : Audio) (chunk_size_ms : Nat) : List Audio :=
  (List.range' 0 ((audio.length + chunk_size_ms - 1) / chunk_size_ms) chunk_size_ms).map
    (fun i => (audio.drop i).take chunk_size_ms)

/-- Translation of AudioExporter.should_use_m4a_fast_path, with the Python
float arithmetic of the size heuristic carried out in the rationals. -/
def should_use_m4a_fast_path (detected_format : String) (speed_up_factor : ℚ)
    (file_size_bytes : Nat) : Bool :=
  let estimated_duration_ms : ℚ := (file_size_bytes : ℚ) / 1024 / 1024 * 8 * 60 * 1000
  decide (detected_format = "m4a") && decide (speed_up_factor = 1) &&
    decide (estimated_duration_ms ≤ (MAX_CHUNK_DURATION_MS : ℚ))

/-- Translation of AudioExporter determine optimal export format: the
lookup in the literal format optimization dictionary with default ogg. -/
def determine_optimal_export_format (detected_audio_format : String) : String :=
  if detected_audio_format = "m4a" then "ogg"
  else if detected_audio_format = "mp4" then "ogg"
  else if detected_audio_format = "mp3" then "mp4"
  else if detected_audio_format = "wav" then "ogg"
  else if detected_audio_format = "flac" then "ogg"
  else if detected_audio_format = "ogg" then "ogg"
  else if detected_audio_format = "webm" then "ogg"
  else "ogg"

/-- Translation of AudioExporter determine optimal bitrate. -/
def determine_optimal_bitrate (detected_audio_format : String)
    (duration_minutes : ℚ) : String :=
  if detected_audio_format ∈ (["m4a", "mp4"] : List String) then "64k"
  else if detected_audio_format = "ogg" then "48k"
  else "96k"

/-- Translation of AudioExporter.export_audio_to_optimal_format, the pydub
export call being the encode parameter; returns the exported bytes with
the chosen format and bitrate. -/
def export_audio_to_optimal_format (encode : Audio → String → String → List Byte)
    (segment : Audio) (detected_audio_format : String) : List Byte × String × String :=
  let optimal_export_format := determine_optimal_export_format detected_audio_format
  let optimal_bitrate :=
    determine_optimal_bitrate detected_audio_format ((segment.length : ℚ) / 60000)
  (encode segment optimal_export_format optimal_bitrate,
    optimal_export_format, optimal_bitrate)

/-! Transcription, from backend/core/intelligence/sound/transcription.py. -/

/-- Translation of TranscriptionProcessor create openai file tuple. -/
def create_openai_file_tuple (bytes : List Byte) (export_format : String) : FileTuple :=
  ⟨"audio." ++ export_format, bytes, "audio/" ++ export_format⟩

/-- Translation of TranscriptionProcessor.process_segment_with_index: the
segment is exported, submitted to the remote service and the result is
tagged with the ordinal index captured before dispatch. -/
def process_segment_with_index {R : Type} (remote : FileTuple → Except String R)
    (encode : Audio → String → String → List Byte)
    (segment : Audio) (index : Nat) (detected_audio_format : String) :
    Except String (Nat × R) :=
  let e := export_audio_to_optimal_format encode segment detected_audio_format
  (remote (create_openai_file_tuple e.1 e.2.1)).map (fun t => (index, t))

/-- Ordering of indexed results by their index component. -/
def idxLe {R : Type} (a b : Nat × R) : Prop := a.1 ≤ b.1

instance {R : Type} : DecidableRel (@idxLe R) := fun a b => Nat.decLe a.1 b.1

instance {R : Type} : IsTotal (Nat × R) idxLe := ⟨fun a b => Nat.le_total a.1 b.1⟩

instance {R : Type} : IsTrans (Nat × R) idxLe := ⟨fun _ _ _ h1 h2 => Nat.le_trans h1 h2⟩

/-- Translation of TranscriptionAssembler sort transcriptions by index:
Python sorted with key fst is the stable ascending sort by index. -/
def sort_transcriptions_by_index {R : Type} (l : List (Nat × R)) : List (Nat × R) :=
  List.insertionSort idxLe l

/-- Translation of TranscriptionAssembler.assemble_final_transcriptions. -/
def assemble_final_transcriptions {R : Type} (l : List (Nat × R)) : List R :=
  (sort_transcriptions_by_index l).map Prod.snd

/-! Orchestrator, from backend/core/intelligence/sound/dunder init. -/

/-- Translation of AudioSense.apply_speed_modification, the pydub speedup
effect being the parameter sp. -/
def apply_speed_modification (sp : Audio → ℚ → Audio) (audio : Audio)
    (speed_up_factor : ℚ) : Audio :=
  if speed_up_factor ≠ 1 then sp audio speed_up_factor else audio

/-- Translation of create_direct_file_tuple inside transcribe_m4a_directly:
the original bytes with the original filename (or the audio.m4a default on
a falsy filename) and the audio/m4a mime type. -/
def create_direct_file_tuple (audio_file : UploadFile) : FileTuple :=
  ⟨(match audio_file.filename with
    | some s => if s = "" then "audio.m4a" else s
    | none => "audio.m4a"), audio_file.content, "audio/m4a"⟩

/-- Translation of AudioSense.transcribe_m4a_directly: one remote call on
the original bytes, wrapped as a one-element list. -/
def transcribe_m4a_directly {R : Type} (remote : FileTuple → Except String R)
    (audio_file : UploadFile) : Except String (List R) :=
  (remote (create_direct_file_tuple audio_file)).map (fun t => [t])

/-- Deterministic rendering of the join of asyncio.gather: the list of all
results in task order when every task succeeds, otherwise the error of the
earliest failing task. -/
def gatherResults {β : Type} : List (Except String β) → Except String (List β)
  | [] => Except.ok []
  | t :: ts =>
    match t with
    | Except.error e => Except.error e
    | Except.ok r => (gatherResults ts).map (fun rs => r :: rs)

/-- Translation of AudioSense.process_audio_segments_concurrently: one task
per enumerated segment, joined by gather. -/
def process_audio_segments_concurrently {R : Type} (remote : FileTuple → Except String R)
    (encode : Audio → String → String → List Byte)
    (segments : List Audio) (detected_audio_format : String) :
    Except String (List (Nat × R)) :=
  gatherResults (segments.enum.map
    (fun p => process_segment_with_index remote encode p.2 p.1 detected_audio_format))

/-- Translation of the Python expression chunk_size_ms or calculated
duration: None and 0 are falsy, so both fall back to the calculated
duration of the raw audio. -/
def optimal_chunk_size (chunk_size_ms : Option Nat) (raw_length : Nat) : Nat :=
  match chunk_size_ms with
  | some c => if c = 0 then calculate_optimal_chunk_duration raw_length else c
  | none => calculate_optimal_chunk_duration raw_length

/-- Segments produced by the full pipeline from the decoded raw audio:
speed modification, then the split at the chosen chunk size (computed, as
in the source, from the length of the raw audio). -/
def pipeline_segments (sp : Audio → ℚ → Audio) (raw_audio : Audio)
    (chunk_size_ms : Option Nat) (speed_up_factor : ℚ) : List Audio :=
  split_audio_into_segments (apply_speed_modification sp raw_audio speed_up_factor)
    (optimal_chunk_size chunk_size_ms raw_audio.length)

/-- Translation of AudioSense.transcribe: detect the format, take the m4a
fast path when its guard holds (the declared size defaulting to 0),
otherwise decode with fallback, speed-modify, split, process all segments
concurrently and assemble the results in index order. -/
def transcribe {R : Type} (remote : FileTuple → Except String R)
    (fromFileObject : UploadFile → String → Except String Audio)
    (fromTempFile : List Byte → Except String Audio)
    (sp : Audio → ℚ → Audio) (encode : Audio → String → String → List Byte)
    (audio_file : UploadFile) (chunk_size_ms : Option Nat) (speed_up_factor : ℚ) :
    Except String (List R) :=
  let detected_audio_format := determine_audio_format audio_file
  if should_use_m4a_fast_path detected_audio_format speed_up_factor
      (audio_file.size.getD 0) then
    transcribe_m4a_directly remote audio_file
  else
    match (load_audio_with_fallback fromFileObject fromTempFile audio_file
        detected_audio_format []).1 with
    | Except.error e => Except.error e
    | Except.ok raw_audio =>
      let audio_segments := pipeline_segments sp raw_audio chunk_size_ms speed_up_factor
      (process_audio_segments_concurrently remote encode audio_segments
        detected_audio_format).map assemble_final_transcriptions

/-- Statement of the C7 claim as a function: first match wins between the
filename extension table, the content-type substring table and the mp3
default. Written from the words of the claim, to be compared with the
translation of the source. -/
def format_detection_per_claim (filename content_type : Option String) : String :=
  let ext :=
    match filename with
    | some fn => String.mk ((pathSuffix fn).map Char.toLower)
    | none => ""
  if ext ∈ SUPPORTED_AUDIO_FORMATS then ext.drop 1
  else
    let ctl :=
      match content_type with
      | some ct => strLower ct
      | none => ""
    if containsSub ctl "mp4" || containsSub ctl "m4a" then "m4a"
    else if containsSub ctl "mp3" then "mp3"
    else if containsSub ctl "wav" then "wav"
    else "mp3"

/-! Theorems. -/

/-- C8: for every total duration D in milliseconds,
calculate_optimal_chunk_duration D equals min D 1800000; in particular it
returns 1800000 at D = 1900000 and 500000 at D = 500000. -/
theorem C8_chunk_ceiling :
    (∀ d : Nat, calculate_optimal_chunk_duration d = min d 1800000) ∧
    calculate_optimal_chunk_duration 1900000 = 1800000 ∧
    calculate_optimal_chunk_duration 500000 = 500000 := by
  refine ⟨fun d => ?_, by decide, by decide⟩
  simp only [calculate_optimal_chunk_duration, MAX_CHUNK_DURATION_MS]
  split <;> omega

/-- C6: the exporter chooses exactly the codec/bitrate pair of the fixed
table: codec mp4 for an mp3 source and ogg for every other source; bitrate
64k for m4a and mp4, 48k for ogg, 96k for every other format, the seven
known formats and any unknown format included. -/
theorem C6_codec_bitrate_table :
    ∀ d : ℚ,
      (determine_optimal_export_format "m4a" = "ogg" ∧
        determine_optimal_bitrate "m4a" d = "64k") ∧
      (determine_optimal_export_format "mp4" = "ogg" ∧
        determine_optimal_bitrate "mp4" d = "64k") ∧
      (determine_optimal_export_format "mp3" = "mp4" ∧
        determine_optimal_bitrate "mp3" d = "96k") ∧
      (determine_optimal_export_format "wav" = "ogg" ∧
        determine_optimal_bitrate "wav" d = "96k") ∧
      (determine_optimal_export_format "flac" = "ogg" ∧
        determine_optimal_bitrate "flac" d = "96k") ∧
      (determine_optimal_export_format "ogg" = "ogg" ∧
        determine_optimal_bitrate "ogg" d = "48k") ∧
      (determine_optimal_export_format "webm" = "ogg" ∧
        determine_optimal_bitrate "webm" d = "96k") ∧
      (∀ f : String, f ∉ ["m4a", "mp4", "mp3", "wav", "flac", "ogg", "webm"] →
        determine_optimal_export_format f = "ogg" ∧
          determine_optimal_bitrate f d = "96k") := by
  intro d
  refine ⟨⟨rfl, rfl⟩, ⟨rfl, rfl⟩, ⟨rfl, rfl⟩, ⟨rfl, rfl⟩, ⟨rfl, rfl⟩, ⟨rfl, rfl⟩,
    ⟨rfl, rfl⟩, fun f hf => ?_⟩
  simp only [List.mem_cons, List.not_mem_nil, or_false, not_or] at hf
  obtain ⟨h1, h2, h3, h4, h5, h6, h7⟩ := hf
  constructor
  · simp only [determine_optimal_export_format, if_neg h1, if_neg h2, if_neg h3,
      if_neg h4, if_neg h5, if_neg h6, if_neg h7]
  · simp only [determine_optimal_bitrate, List.mem_cons, List.not_mem_nil]
    rw [if_neg (by simp [h1, h2]), if_neg h6]

/-- C6 witness: the unknown-format row of the table, evaluated at a
concrete unknown format. -/
theorem C6_codec_bitrate_table_witness :
    determine_optimal_export_format "aiff" = "ogg" ∧
      determine_optimal_bitrate "aiff" 0 = "96k" :=
  (C6_codec_bitrate_table 0).2.2.2.2.2.2.2 "aiff" (by decide)

/-- C4: evaluation of the loader at an input whose direct decode and whose
fallback decode both fail: the temporary file temp.mp3 is created and
survives the call, because the cleanup line is skipped when the fallback
decode raises. This contradicts the claim that the temporary file is
deleted on every exit path. -/
theorem C4_temp_file_survives_failed_fallback :
    load_audio_with_fallback (fun _ _ => Except.error "direct decode failed")
      (fun _ => Except.error "fallback decode failed")
      ⟨some "a.mp3", none, none, [1, 2, 3]⟩ "mp3" [] =
      (Except.error "fallback decode failed", ["temp.mp3"]) := rfl

/-- C5: for every speed factor at most 0, apply_speed_modification applies
the speed-up transform to the audio instead of rejecting the input: the
code has no validation of the factor, contradicting the claim that a
non-positive factor is rejected with InvalidArgument before the pipeline
starts. -/
theorem C5_nonpositive_factor_not_rejected
    (sp : Audio → ℚ → Audio) (audio : Audio) (s : ℚ) (hs : s ≤ 0) :
    apply_speed_modification sp audio s = sp audio s := by
  have h1 : s ≠ 1 := by
    intro h
    rw [h] at hs
    norm_num at hs
  simp [apply_speed_modification, h1]

/-- C5 witness: a concrete negative factor reaches the transform. -/
theorem C5_nonpositive_factor_not_rejected_witness :
    apply_speed_modification (fun a _ => a ++ a) [7] (-1) =
      (fun (a : Audio) (_ : ℚ) => a ++ a) [7] (-1) :=
  C5_nonpositive_factor_not_rejected (fun a _ => a ++ a) [7] (-1) (by norm_num)

/-- Content-type fallback of the detector agrees with the content-type
chain of the claim-side function. -/
lemma ct_fallback_eq (ct : Option String) :
    (match extract_audio_format_from_content_type ct with
      | some x => x
      | none => "mp3") =
    (let ctl :=
      match ct with
      | some c => strLower c
      | none => ""
     if containsSub ctl "mp4" || containsSub ctl "m4a" then "m4a"
     else if containsSub ctl "mp3" then "mp3"
     else if containsSub ctl "wav" then "wav"
     else "mp3") := by
  cases ct with
  | none => rfl
  | some c =>
    by_cases hc : c = ""
    · subst hc; rfl
    · simp only [extract_audio_format_from_content_type, if_neg hc]
      cases h1 : containsSub (strLower c) "mp4" || containsSub (strLower c) "m4a" <;>
        cases h2 : containsSub (strLower c) "mp3" <;>
          cases h3 : containsSub (strLower c) "wav" <;>
            simp [h1, h2, h3]

/-- Detector and claim-side function agree on every filename and content
type. -/
lemma detect_eq_claim (fn ct : Option String) :
    (match extract_audio_format_from_filename fn with
      | some x => x
      | none =>
        match extract_audio_format_from_content_type ct with
        | some x => x
        | none => "mp3") = format_detection_per_claim fn ct := by
  cases fn with
  | none =>
    simp only [extract_audio_format_from_filename, format_detection_per_claim]
    rw [if_neg (by decide : ¬ ("" ∈ SUPPORTED_AUDIO_FORMATS))]
    exact ct_fallback_eq ct
  | some f =>
    by_cases hf : f = ""
    · subst hf
      simp only [extract_audio_format_from_filename, if_pos rfl,
        format_detection_per_claim]
      rw [if_neg (by decide :
        ¬ (String.mk ((pathSuffix "").map Char.toLower) ∈ SUPPORTED_AUDIO_FORMATS))]
      exact ct_fallback_eq ct
    · simp only [extract_audio_format_from_filename, if_neg hf,
        format_detection_per_claim]
      by_cases hs : String.mk ((pathSuffix f).map Char.toLower) ∈ SUPPORTED_AUDIO_FORMATS
      · rw [if_pos hs, if_pos hs]
      · rw [if_neg hs, if_neg hs]
        exact ct_fallback_eq ct

/-- Any format extracted from a filename is a supported extension sans
dot. -/
lemma filename_format_mem (fn : Option String) (x : String)
    (h : extract_audio_format_from_filename fn = some x) :
    x ∈ ["mp3", "mp4", "m4a", "wav", "flac", "ogg", "webm"] := by
  cases fn with
  | none => simp [extract_audio_format_from_filename] at h
  | some f =>
    simp only [extract_audio_format_from_filename] at h
    by_cases hf : f = ""
    · rw [if_pos hf] at h; exact absurd h (by simp)
    · rw [if_neg hf] at h
      by_cases hs : String.mk ((pathSuffix f).map Char.toLower) ∈ SUPPORTED_AUDIO_FORMATS
      · rw [if_pos hs] at h
        have hx : x = (String.mk ((pathSuffix f).map Char.toLower)).drop 1 :=
          (Option.some.injEq _ _).mp h.symm
        simp only [SUPPORTED_AUDIO_FORMATS, List.mem_cons, List.not_mem_nil,
          or_false] at hs
        rcases hs with h7 | h7 | h7 | h7 | h7 | h7 | h7 <;>
          rw [h7] at hx <;> rw [hx] <;> decide
      · rw [if_neg hs] at h; exact absurd h (by simp)

/-- Any format extracted from a content type is m4a, mp3 or wav. -/
lemma content_type_format_mem (ct : Option String) (x : String)
    (h : extract_audio_format_from_content_type ct = some x) :
    x ∈ ["m4a", "mp3", "wav"] := by
  cases ct with
  | none => simp [extract_audio_format_from_content_type] at h
  | some c =>
    simp only [extract_audio_format_from_content_type] at h
    by_cases hc : c = ""
    · rw [if_pos hc] at h; exact absurd h (by simp)
    · rw [if_neg hc] at h
      cases h1 : containsSub (strLower c) "mp4" || containsSub (strLower c) "m4a" <;>
        rw [h1] at h
      · cases h2 : containsSub (strLower c) "mp3" <;> rw [h2] at h
        · cases h3 : containsSub (strLower c) "wav" <;> rw [h3] at h
          · simp at h
          · simp only [if_pos] at h
            rw [← (Option.some.injEq _ _).mp h]; decide
        · simp only [if_pos] at h
          rw [← (Option.some.injEq _ _).mp h]; decide
      · simp only [if_pos] at h
        rw [← (Option.some.injEq _ _).mp h]; decide

/-- C7: format detection is first-match-wins exactly as claimed (the
claim-side chain is the function format_detection_per_claim written from
the words of the claim), it never fails, and it always yields one of the
seven usable formats. -/
theorem C7_format_detection (f : UploadFile) :
    determine_audio_format f = format_detection_per_claim f.filename f.content_type ∧
    determine_audio_format f ∈ ["mp3", "mp4", "m4a", "wav", "flac", "ogg", "webm"] := by
  constructor
  · exact detect_eq_claim f.filename f.content_type
  · show (match extract_audio_format_from_filename f.filename with
      | some x => x
      | none =>
        match extract_audio_format_from_content_type f.content_type with
        | some x => x
        | none => "mp3") ∈ _
    cases h1 : extract_audio_format_from_filename f.filename with
    | some x => exact filename_format_mem f.filename x h1
    | none =>
      cases h2 : extract_audio_format_from_content_type f.content_type with
      | some y =>
        have := content_type_format_mem f.content_type y h2
        simp only [List.mem_cons, List.not_mem_nil, or_false] at this
        rcases this with rfl | rfl | rfl <;> decide
      | none => decide

/-- Taking m + n elements is taking m, then n more from the remainder. -/
lemma take_add_split {α : Type} (l : List α) (m n : Nat) :
    l.take (m + n) = l.take m ++ (l.drop m).take n := by
  rw [List.take_drop]
  conv_lhs => rw [← List.take_append_drop m (l.take (m + n))]
  congr 1
  rw [List.take_take]
  congr 1
  omega

/-- Concatenating the first k chunk slices of a list recovers its first
k * c elements. -/
lemma flatten_slices {α : Type} (c : Nat) : ∀ (k : Nat) (a : List α),
    ((List.range' 0 k c).map fun i => (a.drop i).take c).flatten = a.take (k * c) := by
  intro k
  induction k with
  | zero => intro a; simp
  | succ n ih =>
    intro a
    rw [List.range'_concat, List.map_append, List.flatten_append]
    simp only [List.map_cons, List.map_nil, List.flatten_cons, List.flatten_nil,
      List.append_nil, Nat.zero_add]
    rw [ih, Nat.succ_mul, take_add_split, Nat.mul_comm c n]

/-- The ceiling chunk count times the chunk size covers the length. -/
lemma le_ceil_mul (c L : Nat) (hc : 0 < c) : L ≤ (L + c - 1) / c * c := by
  rcases L with _ | m
  · simp
  · have heq : m + 1 + c - 1 = m + c := by omega
    rw [heq, Nat.add_div_right m hc]
    have h2 := Nat.div_add_mod m c
    have h3 : m % c < c := Nat.mod_lt _ hc
    calc m + 1 = c * (m / c) + m % c + 1 := by rw [h2]
      _ ≤ c * (m / c) + c := by omega
      _ = (m / c + 1) * c := by ring

/-- Every chunk index below the last one leaves at least a full chunk. -/
lemma chunk_not_last (c L i : Nat) (hc : 0 < c) (h : i + 1 < (L + c - 1) / c) :
    c * (i + 1) ≤ L := by
  rcases L with _ | m
  · rw [show 0 + c - 1 = c - 1 by omega, Nat.div_eq_of_lt (by omega)] at h
    omega
  · have heq : m + 1 + c - 1 = m + c := by omega
    rw [heq, Nat.add_div_right m hc] at h
    have h2 : i + 1 ≤ m / c := by omega
    have h3 : c * (i + 1) ≤ c * (m / c) := Nat.mul_le_mul_left c h2
    have h4 : c * (m / c) ≤ m := by
      rw [Nat.mul_comm]; exact Nat.div_mul_le_self m c
    omega

/-- C9: for every audio and every positive chunk size, the split yields
the chronological slices in order: flattening them recovers the audio
exactly (contiguity, disjointness and coverage), the i-th returned segment
is the slice starting at i times the chunk size, every segment has at most
chunk size frames, and every segment before the last has exactly chunk
size frames. -/
theorem C9_split_segments (a : Audio) (c : Nat) (hc : 0 < c) :
    (split_audio_into_segments a c).flatten = a ∧
    (∀ i (h : i < (split_audio_into_segments a c).length),
      (split_audio_into_segments a c)[i] = (a.drop (c * i)).take c) ∧
    (∀ s ∈ split_audio_into_segments a c, s.length ≤ c) ∧
    (∀ i (h : i < (split_audio_into_segments a c).length),
      i + 1 < (split_audio_into_segments a c).length →
        ((split_audio_into_segments a c)[i]).length = c) := by
  have hget : ∀ i (h : i < (split_audio_into_segments a c).length),
      (split_audio_into_segments a c)[i] = (a.drop (c * i)).take c := by
    intro i h
    simp only [split_audio_into_segments] at h ⊢
    rw [List.getElem_map, List.getElem_range', Nat.zero_add]
  have hlen : (split_audio_into_segments a c).length = (a.length + c - 1) / c := by
    simp [split_audio_into_segments]
  refine ⟨?_, hget, ?_, ?_⟩
  · rw [split_audio_into_segments, flatten_slices]
    exact List.take_of_length_le (le_ceil_mul c a.length hc)
  · intro s hs
    simp only [split_audio_into_segments, List.mem_map] at hs
    obtain ⟨i, _, rfl⟩ := hs
    simp only [List.length_take]
    omega
  · intro i h hsucc
    rw [hget i h]
    rw [hlen] at hsucc
    have hcov : c * (i + 1) ≤ a.length := chunk_not_last c a.length i hc hsucc
    have hmul : c * (i + 1) = c * i + c := by ring
    simp only [List.length_take, List.length_drop]
    omega

/-- C9 witness: a five-frame audio split into chunks of two. -/
theorem C9_split_segments_witness :
    (split_audio_into_segments [0, 1, 2, 3, 4] 2).flatten = [0, 1, 2, 3, 4] :=
  (C9_split_segments [0, 1, 2, 3, 4] 2 (by decide)).1

/-- The stable sort of any permutation of a list with pairwise distinct
indices is strictly ascending in the index. -/
lemma sort_strict_of_nodup {R : Type} (l m : List (Nat × R))
    (hnd : (l.map Prod.fst).Nodup) (hm : m.Perm l) :
    List.Pairwise (fun a b : Nat × R => a.1 < b.1) (sort_transcriptions_by_index m) := by
  have hs : List.Sorted idxLe (sort_transcriptions_by_index m) :=
    List.sorted_insertionSort idxLe m
  have hperm : List.Perm ((sort_transcriptions_by_index m).map Prod.fst) (l.map Prod.fst) :=
    ((List.perm_insertionSort idxLe m).trans hm).map Prod.fst
  have hnd2 : ((sort_transcriptions_by_index m).map Prod.fst).Nodup :=
    hperm.nodup_iff.mpr hnd
  have hne : List.Pairwise (fun a b : Nat × R => a.1 ≠ b.1)
      (sort_transcriptions_by_index m) := List.pairwise_map.mp hnd2
  exact (hs.and hne).imp (fun h => Nat.lt_of_le_of_ne h.1 h.2)

/-- C1 (amended): assemble returns exactly the results of a permutation of
the input that is ascending in the index, with the index dropped, and the
output length equals the input length; when the indices are pairwise
distinct — as they always are in the pipeline, where they come from
enumerate — the result is the same for every permutation of the input.
The distinctness hypothesis is needed: with a duplicated index the stable
sort keeps the relative order of the tied pairs, which depends on the
input order. -/
theorem C1_assemble_ordered {R : Type} (l : List (Nat × R)) :
    (assemble_final_transcriptions l).length = l.length ∧
    (∃ l2 : List (Nat × R), l2.Perm l ∧ List.Pairwise idxLe l2 ∧
      assemble_final_transcriptions l = l2.map Prod.snd) ∧
    ((l.map Prod.fst).Nodup →
      ∀ lp : List (Nat × R), lp.Perm l →
        assemble_final_transcriptions lp = assemble_final_transcriptions l) := by
  refine ⟨?_, ⟨sort_transcriptions_by_index l, List.perm_insertionSort idxLe l,
    List.sorted_insertionSort idxLe l, rfl⟩, ?_⟩
  · simp only [assemble_final_transcriptions, List.length_map]
    exact (List.perm_insertionSort idxLe l).length_eq
  · intro hnd lp hp
    haveI : IsAntisymm (Nat × R) (fun a b => a.1 < b.1) :=
      ⟨fun a b h1 h2 => absurd (Nat.lt_trans h1 h2) (Nat.lt_irrefl _)⟩
    have hperm : List.Perm (sort_transcriptions_by_index lp) (sort_transcriptions_by_index l) :=
      ((List.perm_insertionSort idxLe lp).trans hp).trans
        (List.perm_insertionSort idxLe l).symm
    have heq : sort_transcriptions_by_index lp = sort_transcriptions_by_index l :=
      List.eq_of_perm_of_sorted hperm
        (sort_strict_of_nodup l lp hnd hp)
        (sort_strict_of_nodup l l hnd (List.Perm.refl l))
    simp only [assemble_final_transcriptions, heq]

/-- C1 counterexample: with a duplicated index, two permutations of the
same input assemble to different outputs, refuting the unrestricted
permutation-invariance of the claim. -/
theorem C1_duplicate_index_cex :
    ([(0, 2), (0, 1)] : List (Nat × Nat)).Perm [(0, 1), (0, 2)] ∧
    assemble_final_transcriptions [(0, 2), (0, 1)] ≠
      assemble_final_transcriptions ([(0, 1), (0, 2)] : List (Nat × Nat)) := by
  constructor
  · decide
  · decide

/-- C1 witness: on distinct indices, a transposed input assembles to the
same output as the original. -/
theorem C1_assemble_ordered_witness :
    assemble_final_transcriptions [(1, 20), (0, 10)] =
      assemble_final_transcriptions ([(0, 10), (1, 20)] : List (Nat × Nat)) :=
  (C1_assemble_ordered [(0, 10), (1, 20)]).2.2 (by decide) [(1, 20), (0, 10)] (by decide)

/-- Under a true fast-path guard, transcribe is exactly one remote call on
the original bytes, wrapped as a singleton, touching neither the decoders
nor the encoder. -/
lemma transcribe_fast_path {R : Type} (remote : FileTuple → Except String R)
    (fromFileObject : UploadFile → String → Except String Audio)
    (fromTempFile : List Byte → Except String Audio)
    (sp : Audio → ℚ → Audio) (encode : Audio → String → String → List Byte)
    (f : UploadFile) (cs : Option Nat) (s : ℚ)
    (h : should_use_m4a_fast_path (determine_audio_format f) s (f.size.getD 0) = true) :
    transcribe remote fromFileObject fromTempFile sp encode f cs s =
      (remote (create_direct_file_tuple f)).map (fun t => [t]) := by
  simp only [transcribe, h, if_true, transcribe_m4a_directly]

/-- A gather with a failing task never returns a result list. -/
lemma gatherResults_ne_ok {β : Type} :
    ∀ (tasks : List (Except String β)) (i : Nat) (hi : i < tasks.length) (e : String),
      tasks[i] = Except.error e → ∀ rs, gatherResults tasks ≠ Except.ok rs := by
  intro tasks
  induction tasks with
  | nil => intro i hi; exact absurd hi (by simp)
  | cons t ts ih =>
    intro i hi e hget rs hok
    cases i with
    | zero =>
      rw [List.getElem_cons_zero] at hget
      rw [hget] at hok
      exact absurd hok (by simp [gatherResults])
    | succ m =>
      cases t with
      | error e2 => exact absurd hok (by simp [gatherResults])
      | ok r =>
        rw [List.getElem_cons_succ] at hget
        simp only [gatherResults] at hok
        cases hg : gatherResults ts with
        | error e3 => rw [hg] at hok; exact absurd hok (by simp [Except.map])
        | ok rs2 => exact ih m (by simpa using hi) e hget rs2 hg

/-- A gather whose only failing task is the i-th returns that error. -/
lemma gatherResults_eq_error {β : Type} :
    ∀ (tasks : List (Except String β)) (i : Nat) (hi : i < tasks.length) (e : String),
      tasks[i] = Except.error e →
      (∀ j (hj : j < tasks.length), j ≠ i → ∃ r, tasks[j] = Except.ok r) →
      gatherResults tasks = Except.error e := by
  intro tasks
  induction tasks with
  | nil => intro i hi; exact absurd hi (by simp)
  | cons t ts ih =>
    intro i hi e hget hok
    cases i with
    | zero =>
      rw [List.getElem_cons_zero] at hget
      rw [hget]
      rfl
    | succ m =>
      obtain ⟨r, hr⟩ := hok 0 (by simp) (by omega)
      rw [List.getElem_cons_zero] at hr
      rw [List.getElem_cons_succ] at hget
      rw [hr]
      show (gatherResults ts).map (fun rs => r :: rs) = Except.error e
      rw [ih m (by simpa using hi) e hget ?_]
      · rfl
      · intro j hj hne
        have hjt := hok (j + 1) (by simpa using hj) (by omega)
        rw [List.getElem_cons_succ] at hjt
        exact hjt

/-- Length of the per-segment task list. -/
lemma tasks_length {R : Type} (remote : FileTuple → Except String R)
    (encode : Audio → String → String → List Byte)
    (segments : List Audio) (fmt : String) :
    (segments.enum.map
      (fun p => process_segment_with_index remote encode p.2 p.1 fmt)).length =
      segments.length := by
  simp [List.enum_eq_enumFrom]

/-- The j-th task is the indexed processing of the j-th segment. -/
lemma tasks_getElem {R : Type} (remote : FileTuple → Except String R)
    (encode : Audio → String → String → List Byte)
    (segments : List Audio) (fmt : String) (j : Nat) (hj : j < segments.length)
    (hj2 : j < (segments.enum.map
      (fun p => process_segment_with_index remote encode p.2 p.1 fmt)).length) :
    (segments.enum.map
      (fun p => process_segment_with_index remote encode p.2 p.1 fmt))[j] =
      process_segment_with_index remote encode segments[j] j fmt := by
  rw [List.getElem_map]
  simp [List.enum_eq_enumFrom, List.getElem_enumFrom]

/-- When the fast-path guard is false and the direct decode succeeds,
transcribe is the gather over the pipeline segments, assembled. -/
lemma transcribe_full_pipeline {R : Type} (remote : FileTuple → Except String R)
    (fromFileObject : UploadFile → String → Except String Audio)
    (fromTempFile : List Byte → Except String Audio)
    (sp : Audio → ℚ → Audio) (encode : Audio → String → String → List Byte)
    (f : UploadFile) (cs : Option Nat) (s : ℚ) (raw : Audio)
    (hfast : should_use_m4a_fast_path (determine_audio_format f) s (f.size.getD 0) = false)
    (hload : fromFileObject f (determine_audio_format f) = Except.ok raw) :
    transcribe remote fromFileObject fromTempFile sp encode f cs s =
      (gatherResults ((pipeline_segments sp raw cs s).enum.map
        (fun p => process_segment_with_index remote encode p.2 p.1
          (determine_audio_format f)))).map assemble_final_transcriptions := by
  simp only [transcribe, hfast, Bool.false_eq_true, if_false,
    load_audio_with_fallback, hload, process_audio_segments_concurrently]

/-- C2: the fast path is taken exactly when the detected format is m4a,
the speed factor is exactly 1 and the byte-size duration estimate is at
most 1800000 ms (equivalently, the declared size is at most 3932160
bytes); when taken, transcribe is one remote call on the original
unmodified bytes wrapped as a one-element sequence, with the decoders,
the splitter and the encoder never consulted. -/
theorem C2_fast_path_guard {R : Type} (remote : FileTuple → Except String R)
    (fromFileObject : UploadFile → String → Except String Audio)
    (fromTempFile : List Byte → Except String Audio)
    (sp : Audio → ℚ → Audio) (encode : Audio → String → String → List Byte)
    (f : UploadFile) (cs : Option Nat) (s : ℚ) :
    (should_use_m4a_fast_path (determine_audio_format f) s (f.size.getD 0) = true ↔
      determine_audio_format f = "m4a" ∧ s = 1 ∧
        (f.size.getD 0 : ℚ) / 1024 / 1024 * 8 * 60 * 1000 ≤ 1800000) ∧
    ((f.size.getD 0 : ℚ) / 1024 / 1024 * 8 * 60 * 1000 ≤ 1800000 ↔
      f.size.getD 0 ≤ 3932160) ∧
    (should_use_m4a_fast_path (determine_audio_format f) s (f.size.getD 0) = true →
      transcribe remote fromFileObject fromTempFile sp encode f cs s =
        (remote (create_direct_file_tuple f)).map (fun t => [t])) := by
  refine ⟨?_, ?_, fun h =>
    transcribe_fast_path remote fromFileObject fromTempFile sp encode f cs s h⟩
  · simp only [should_use_m4a_fast_path, Bool.and_eq_true, decide_eq_true_eq,
      MAX_CHUNK_DURATION_MS, and_assoc]
    norm_num
  · have hb : (f.size.getD 0 : ℚ) / 1024 / 1024 * 8 * 60 * 1000 =
        (f.size.getD 0 : ℚ) * 480000 / 1048576 := by ring
    rw [hb, div_le_iff₀ (by norm_num : (0 : ℚ) < 1048576)]
    rw [show (1800000 : ℚ) * 1048576 = ((1887436800000 : Nat) : ℚ) by norm_num]
    rw [show (f.size.getD 0 : ℚ) * 480000 = ((f.size.getD 0 * 480000 : Nat) : ℚ) by push_cast; ring]
    rw [Nat.cast_le]
    omega

/-- C2 witness: a one-megabyte m4a upload at speed 1 goes through the fast
path and yields the single remote result. -/
theorem C2_fast_path_guard_witness :
    transcribe (fun _ => Except.ok 0) (fun _ _ => Except.error "nd")
      (fun _ => Except.error "nd") (fun a _ => a) (fun _ _ _ => [])
      ⟨some "talk.m4a", none, some 1000000, [9, 9]⟩ none 1 =
      (Except.ok [0] : Except String (List Nat)) := by
  have hC := C2_fast_path_guard (fun _ => Except.ok (0 : Nat))
    (fun _ _ => Except.error "nd") (fun _ => Except.error "nd") (fun a _ => a)
    (fun _ _ _ => []) ⟨some "talk.m4a", none, some 1000000, [9, 9]⟩ none 1
  have hg := hC.1.mpr ⟨by decide, rfl, by norm_num⟩
  rw [hC.2.2 hg]
  rfl

/-- C10: when the declared size is absent, the guard sees 0 bytes, so for
every m4a-detected upload at speed factor 1 the fast path is taken no
matter how long the actual content is. -/
theorem C10_missing_size_fast_path {R : Type} (remote : FileTuple → Except String R)
    (fromFileObject : UploadFile → String → Except String Audio)
    (fromTempFile : List Byte → Except String Audio)
    (sp : Audio → ℚ → Audio) (encode : Audio → String → String → List Byte)
    (f : UploadFile) (cs : Option Nat)
    (hsz : f.size = none) (hfmt : determine_audio_format f = "m4a") :
    should_use_m4a_fast_path (determine_audio_format f) 1 (f.size.getD 0) = true ∧
    transcribe remote fromFileObject fromTempFile sp encode f cs 1 =
      (remote (create_direct_file_tuple f)).map (fun t => [t]) := by
  have hg : should_use_m4a_fast_path (determine_audio_format f) 1 (f.size.getD 0) = true := by
    rw [hsz, hfmt]
    simp only [should_use_m4a_fast_path, Option.getD_none, Bool.and_eq_true,
      decide_eq_true_eq]
    norm_num [MAX_CHUNK_DURATION_MS]
  exact ⟨hg, transcribe_fast_path remote fromFileObject fromTempFile sp encode f cs 1 hg⟩

/-- C10 witness: a sizeless m4a upload with a long content still takes the
fast path. -/
theorem C10_missing_size_fast_path_witness :
    transcribe (fun _ => Except.ok 1) (fun _ _ => Except.error "nd")
      (fun _ => Except.error "nd") (fun a _ => a) (fun _ _ _ => [])
      ⟨some "long.m4a", none, none, List.replicate 400 7⟩ none 1 =
      (Except.ok [1] : Except String (List Nat)) := by
  have h := (C10_missing_size_fast_path (fun _ => Except.ok (1 : Nat))
    (fun _ _ => Except.error "nd") (fun _ => Except.error "nd") (fun a _ => a)
    (fun _ _ _ => []) ⟨some "long.m4a", none, none, List.replicate 400 7⟩ none
    rfl (by decide)).2
  rw [h]
  rfl

/-- C3: in a full-pipeline invocation with at least one segment, if the
transcription call of one segment fails, transcribe never returns a result
sequence — no strict subset of results — and when every other segment succeeds the
invocation fails with exactly the error of that segment. -/
theorem C3_all_or_nothing {R : Type} (remote : FileTuple → Except String R)
    (fromFileObject : UploadFile → String → Except String Audio)
    (fromTempFile : List Byte → Except String Audio)
    (sp : Audio → ℚ → Audio) (encode : Audio → String → String → List Byte)
    (f : UploadFile) (cs : Option Nat) (s : ℚ) (raw : Audio) (i : Nat) (e : String)
    (hfast : should_use_m4a_fast_path (determine_audio_format f) s (f.size.getD 0) = false)
    (hload : fromFileObject f (determine_audio_format f) = Except.ok raw)
    (hi : i < (pipeline_segments sp raw cs s).length)
    (hfail : process_segment_with_index remote encode
      (pipeline_segments sp raw cs s)[i] i (determine_audio_format f) = Except.error e) :
    (∀ rs, transcribe remote fromFileObject fromTempFile sp encode f cs s ≠
      Except.ok rs) ∧
    ((∀ j (hj : j < (pipeline_segments sp raw cs s).length), j ≠ i →
        ∃ r, process_segment_with_index remote encode
          (pipeline_segments sp raw cs s)[j] j (determine_audio_format f) =
            Except.ok r) →
      transcribe remote fromFileObject fromTempFile sp encode f cs s =
        Except.error e) := by
  have hred := transcribe_full_pipeline remote fromFileObject fromTempFile sp encode
    f cs s raw hfast hload
  have hlen := tasks_length remote encode (pipeline_segments sp raw cs s)
    (determine_audio_format f)
  have hi2 : i < ((pipeline_segments sp raw cs s).enum.map
      (fun p => process_segment_with_index remote encode p.2 p.1
        (determine_audio_format f))).length := by rw [hlen]; exact hi
  have hti : ((pipeline_segments sp raw cs s).enum.map
      (fun p => process_segment_with_index remote encode p.2 p.1
        (determine_audio_format f)))[i] = Except.error e := by
    rw [tasks_getElem remote encode (pipeline_segments sp raw cs s)
      (determine_audio_format f) i hi hi2]
    exact hfail
  constructor
  · intro rs hok
    rw [hred] at hok
    cases hg : gatherResults ((pipeline_segments sp raw cs s).enum.map
        (fun p => process_segment_with_index remote encode p.2 p.1
          (determine_audio_format f))) with
    | error e2 => rw [hg] at hok; exact absurd hok (by simp [Except.map])
    | ok rs2 =>
      exact gatherResults_ne_ok _ i hi2 e hti rs2 hg
  · intro hall
    rw [hred]
    rw [gatherResults_eq_error _ i hi2 e hti ?_]
    · rfl
    · intro j hj hne
      have hjs : j < (pipeline_segments sp raw cs s).length := by
        rw [hlen] at hj; exact hj
      obtain ⟨r, hr⟩ := hall j hjs hne
      refine ⟨r, ?_⟩
      rw [tasks_getElem remote encode (pipeline_segments sp raw cs s)
        (determine_audio_format f) j hjs hj]
      exact hr

/-- C3 witness: a three-second wav decoded into two segments, the second
of which fails remotely, makes the whole invocation fail with that
error. -/
theorem C3_all_or_nothing_witness :
    transcribe (fun t => if t.bytes = [3] then Except.error "boom" else Except.ok 5)
      (fun _ _ => Except.ok [1, 2, 3]) (fun _ => Except.error "nd") (fun a _ => a)
      (fun seg _ _ => seg) ⟨some "x.wav", none, none, [0, 0]⟩ (some 2) 1 =
      (Except.error "boom" : Except String (List Nat)) := by
  have h := C3_all_or_nothing
    (fun t => if t.bytes = [3] then Except.error "boom" else Except.ok (5 : Nat))
    (fun _ _ => Except.ok [1, 2, 3]) (fun _ => Except.error "nd") (fun a _ => a)
    (fun seg _ _ => seg) ⟨some "x.wav", none, none, [0, 0]⟩ (some 2) 1 [1, 2, 3] 1 "boom"
    (by
      have hd : determine_audio_format ⟨some "x.wav", none, none, [0, 0]⟩ = "wav" := by
        decide
      rw [hd]
      simp [should_use_m4a_fast_path])
    rfl (by decide) rfl
  apply h.2
  intro j hj hne
  have hlen2 : (pipeline_segments (fun (a : Audio) (_ : ℚ) => a) [1, 2, 3]
      (some 2) 1).length = 2 := rfl
  rw [hlen2] at hj
  interval_cases j
  · exact ⟨(0, 5), rfl⟩
  · exact absurd rfl hne

